import Mathlib

/-!
Verification of `scripts/fix_ic_launcher_png.py` from the My-Cafe repository.

The script re-encodes up to five Android launcher PNGs.  We give a shallow
embedding: paths are lists of components, the filesystem is an association
list from paths to byte strings, and the image codec (Pillow) is an abstract
`Codec` record whose operations may fail (`Except`), since Pillow is an
external dependency and not part of the repository.  The body of `main` is
translated line by line from the source.
-/

set_option autoImplicit false

namespace FixIcLauncher

/-- A resolved absolute filesystem path, as its list of components
(the leading `/` of a POSIX path is implicit). -/
abbrev FPath := List String

/-- File contents, as a list of byte values. -/
abbrev Bytes := List Nat

/-- The filesystem: an association list from paths to file contents.
A path that has no entry does not exist. -/
abbrev FS := List (FPath × Bytes)

/-- Look up the contents of a path (`Path.exists` / reading the file). -/
def FS.lookup : FS → FPath → Option Bytes
  | [], _ => none
  | (q, c) :: rest, p => if q = p then some c else FS.lookup rest p

/-- Write the given contents at a path, overwriting any existing entry. -/
def FS.write : FS → FPath → Bytes → FS
  | [], p, b => [(p, b)]
  | (q, c) :: rest, p, b => if q = p then (p, b) :: rest else (q, c) :: FS.write rest p b

/-- Remove the entry at a path, if any. -/
def FS.remove : FS → FPath → FS
  | [], _ => []
  | (q, c) :: rest, p => if q = p then FS.remove rest p else (q, c) :: FS.remove rest p

/-- One RGBA pixel: the four channel values red, green, blue, alpha. -/
structure RGBA where
  r : Nat
  g : Nat
  b : Nat
  a : Nat
deriving DecidableEq, Repr

/-- A decoded in-memory image, as Pillow presents it: a mode string
(for example "P", "L", "RGB", "RGBA"), dimensions, and the pixel grid. -/
structure Image where
  mode : String
  width : Nat
  height : Nat
  pixels : List (List RGBA)
deriving DecidableEq, Repr

/-- The image codec (Pillow), an external collaborator of the script,
treated as an opaque record of operations.  Each operation may raise,
modelled by `Except`; a failing encode additionally reports the bytes it
managed to write to the output file before failing (`none` when it failed
before writing anything). -/
structure Codec where
  decode : Bytes → Except String Image
  convertRGBA : Image → Except String Image
  encodePNG : Image → Except (String × Option Bytes) Bytes

/-- `name.with_suffix(suffix)` on the final path component: drop the last
dot-suffix of `name` (pathlib treats a leading dot as no suffix) and append
`suffix`.  Char-level helper: on the reversed character list, drop up to and
including the first dot. -/
def stemRevAux : List Char → Option (List Char)
  | [] => none
  | c :: rest => if c = '.' then some rest else stemRevAux rest

/-- The stem of a file name: the name without its final dot-suffix. -/
def stem (name : String) : String :=
  match stemRevAux name.data.reverse with
  | some r => if r = [] then name else String.mk r.reverse
  | none => name

/-- `PurePath.with_suffix` applied to a file name. -/
def withSuffix (name suffix : String) : String :=
  stem name ++ suffix

/-- Render a path the way Python prints a resolved `PosixPath`. -/
def pathStr (p : FPath) : String :=
  "/" ++ String.intercalate "/" p

/-- The parent directory of a path (`Path.parent`). -/
def parentDir (p : FPath) : FPath := p.dropLast

/-- `RES_BASE = Path(__file__).resolve().parent.parent / "android" / "app" /
"src" / "main" / "res"`, as a function of the script's resolved location. -/
def RES_BASE (scriptPath : FPath) : FPath :=
  parentDir (parentDir scriptPath) ++ ["android", "app", "src", "main", "res"]

/-- `MIPMAP_DIRS` from the source. -/
def MIPMAP_DIRS : List String :=
  ["mipmap-mdpi", "mipmap-hdpi", "mipmap-xhdpi", "mipmap-xxhdpi", "mipmap-xxxhdpi"]

/-- `ICON_NAME` from the source. -/
def ICON_NAME : String := "ic_launcher.png"

/-- `path = RES_BASE / d / ICON_NAME`: the candidate file for directory `d`. -/
def candPath (scriptPath : FPath) (d : String) : FPath :=
  RES_BASE scriptPath ++ [d, ICON_NAME]

/-- `tmp = path.with_suffix(".tmp.png")`: the temporary sibling of the
candidate file (`with_suffix` rewrites only the final component). -/
def tmpPath (scriptPath : FPath) (d : String) : FPath :=
  RES_BASE scriptPath ++ [d, withSuffix ICON_NAME ".tmp.png"]

/-- How a run ends, as observed by the operating system: normal completion
(exit code 0), `SystemExit code`, or an uncaught exception propagating out of
`main` (a non-zero process exit in Python). -/
inductive ExitStatus where
  | ok
  | sysExit (code : Nat)
  | exn (msg : String)
deriving DecidableEq, Repr

/-- The observable result of a run: the lines printed to stdout, in order;
the final filesystem; and the exit status. -/
structure RunResult where
  lines : List String
  fs : FS
  status : ExitStatus
deriving DecidableEq, Repr

/-- The body of the `try` block up to and including `img.save`:
`Image.open(path)` on the file's bytes, then `.convert("RGBA")`, then encode
to PNG.  The error carries the exception message and the bytes (if any) that
the failing save left behind in the temporary file. -/
def processBytes (c : Codec) (b : Bytes) : Except (String × Option Bytes) Bytes :=
  match c.decode b with
  | .error m => .error (m, none)
  | .ok img =>
    match c.convertRGBA img with
    | .error m => .error (m, none)
    | .ok rgba => c.encodePNG rgba

/-- The `for d in MIPMAP_DIRS` loop of `main`, with the directories still to
process, the current filesystem and the lines printed so far.  A missing file
is skipped; a present file is decoded, converted, encoded to the temporary
path and renamed over the original (`tmp.replace(path)`); any exception
prints an error line and aborts the whole run. -/
def mainLoop (c : Codec) (scriptPath : FPath) : List String → FS → List String → RunResult
  | [], fs, acc => ⟨acc ++ ["Done."], fs, .ok⟩
  | d :: rest, fs, acc =>
    let path := candPath scriptPath d
    match FS.lookup fs path with
    | none => mainLoop c scriptPath rest fs (acc ++ ["Skip (missing): " ++ pathStr path])
    | some b =>
      let tmp := tmpPath scriptPath d
      match processBytes c b with
      | .ok out =>
        let fs1 := FS.write fs tmp out
        let fs2 := FS.write (FS.remove fs1 tmp) path out
        mainLoop c scriptPath rest fs2 (acc ++ ["OK: " ++ pathStr path])
      | .error (m, pb) =>
        let fs1 := match pb with
          | some bs => FS.write fs tmp bs
          | none => fs
        ⟨acc ++ ["Error " ++ pathStr path ++ ": " ++ m], fs1, .exn m⟩

/-- `main()` from the source: run the loop over the five fixed directories. -/
def main (c : Codec) (scriptPath : FPath) (fs : FS) : RunResult :=
  mainLoop c scriptPath MIPMAP_DIRS fs []

/-- The whole program, including the import guard at module load: when Pillow
is unavailable the script prints an installation hint and raises
`SystemExit(1)` before touching any file. -/
def program (pillowAvailable : Bool) (c : Codec) (scriptPath : FPath) (fs : FS) : RunResult :=
  if pillowAvailable then main c scriptPath fs
  else ⟨["Install Pillow: pip install Pillow"], fs, .sysExit 1⟩

/-- The per-directory outcome, judged from the pre-run filesystem: the file
is absent (skip), processes successfully to the bytes `out`, or raises. -/
inductive DirOutcome where
  | skip
  | okd (out : Bytes)
  | err (msg : String) (pb : Option Bytes)
deriving DecidableEq, Repr

/-- Whether a per-directory outcome is the fatal one. -/
def DirOutcome.isErr : DirOutcome → Bool
  | .err _ _ => true
  | _ => false

/-- Judge one directory against the pre-run filesystem. -/
def dirOutcome (c : Codec) (scriptPath : FPath) (fs : FS) (d : String) : DirOutcome :=
  match FS.lookup fs (candPath scriptPath d) with
  | none => .skip
  | some b =>
    match processBytes c b with
    | .ok out => .okd out
    | .error (m, pb) => .err m pb

/-- The output lines the specification predicts, from its own words: one
skip/OK line per directory in the fixed order, stopping at the first error
line, and a final "Done." only when no directory erred. -/
def specGo (c : Codec) (scriptPath : FPath) (fs : FS) : List String → List String
  | [] => ["Done."]
  | d :: rest =>
    match dirOutcome c scriptPath fs d with
    | .skip => ("Skip (missing): " ++ pathStr (candPath scriptPath d)) :: specGo c scriptPath fs rest
    | .okd _ => ("OK: " ++ pathStr (candPath scriptPath d)) :: specGo c scriptPath fs rest
    | .err m _ => ["Error " ++ pathStr (candPath scriptPath d) ++ ": " ++ m]

/-- The full predicted output of a run, per the specification. -/
def specLinesDef (c : Codec) (scriptPath : FPath) (fs : FS) : List String :=
  specGo c scriptPath fs MIPMAP_DIRS

/-- The base directory as the specification describes it: "three levels up"
from the script file's resolved location, then into
`android/app/src/main/res`.  Kept side by side with `RES_BASE`, which is
translated from the source, to compare the two. -/
def resBaseSpecThreeUp (scriptPath : FPath) : FPath :=
  ((scriptPath.dropLast).dropLast).dropLast ++ ["android", "app", "src", "main", "res"]

/-- What a candidate path holds after the loop, when no directory errs:
its pre-run contents if it was skipped, the re-encoded bytes if processed. -/
def outcomeContent : DirOutcome → Option Bytes → Option Bytes
  | .skip, orig => orig
  | .okd out, _ => some out
  | .err _ _, _ => none

/-- A run of the program seen from a given current working directory.  The
source computes every path from `Path(__file__).resolve()` (the script's own
resolved location, passed here as `scriptPath`) and never consults the
process working directory, so the extra argument is simply unused. -/
def runFromCwd (cwd : FPath) (pillowAvailable : Bool) (c : Codec) (scriptPath : FPath)
    (fs : FS) : RunResult :=
  program pillowAvailable c scriptPath fs

/-- A 1-by-1 indexed-colour ("P" mode) test image. -/
def imgP : Image := ⟨"P", 1, 1, [[⟨5, 6, 7, 8⟩]]⟩

/-- The same test image in RGBA mode. -/
def imgRGBA : Image := ⟨"RGBA", 1, 1, [[⟨5, 6, 7, 8⟩]]⟩

/-- A well-behaved test codec: the byte string `[0]` decodes to `imgP` and
`[1]` to `imgRGBA`; conversion rewrites the mode and keeps dimensions and
pixels; encoding always produces `[1]`. -/
def cOk : Codec where
  decode := fun b =>
    if b = [0] then .ok imgP
    else if b = [1] then .ok imgRGBA
    else .error "cannot identify image file"
  convertRGBA := fun i => .ok ⟨"RGBA", i.width, i.height, i.pixels⟩
  encodePNG := fun _ => .ok [1]

/-- A test codec whose save always fails after writing the byte `9` to the
output file. -/
def cErr : Codec where
  decode := fun b => if b = [0] then .ok imgP else .error "cannot identify image file"
  convertRGBA := fun i => .ok ⟨"RGBA", i.width, i.height, i.pixels⟩
  encodePNG := fun _ => .error ("disk full", some [9])

/-- A concrete resolved script location for the witness runs. -/
def sp0 : FPath := ["home", "user", "My-Cafe", "scripts", "fix_ic_launcher_png.py"]

/-- A filesystem holding a single candidate file, in `mipmap-hdpi`. -/
def fsHdpi : FS := [(candPath sp0 "mipmap-hdpi", [0])]

/-! ### Filesystem lemmas -/

@[simp] theorem FS.lookup_write_self (fs : FS) (p : FPath) (b : Bytes) :
    FS.lookup (FS.write fs p b) p = some b := by
  induction fs with
  | nil => simp [FS.write, FS.lookup]
  | cons hd tl ih =>
    obtain ⟨q, c⟩ := hd
    by_cases h : q = p <;> simp [FS.write, FS.lookup, h, ih]

theorem FS.lookup_write_ne (fs : FS) (p q : FPath) (b : Bytes) (h : q ≠ p) :
    FS.lookup (FS.write fs p b) q = FS.lookup fs q := by
  have h' : p ≠ q := Ne.symm h
  induction fs with
  | nil => simp [FS.write, FS.lookup, h']
  | cons hd tl ih =>
    obtain ⟨r, c⟩ := hd
    by_cases hr : r = p
    · subst hr
      simp [FS.write, FS.lookup, h']
    · by_cases hq : r = q
      · subst hq
        simp [FS.write, FS.lookup, hr]
      · simp [FS.write, FS.lookup, hr, hq, ih]

theorem FS.lookup_remove_ne (fs : FS) (p q : FPath) (h : q ≠ p) :
    FS.lookup (FS.remove fs p) q = FS.lookup fs q := by
  have h' : p ≠ q := Ne.symm h
  induction fs with
  | nil => simp [FS.remove]
  | cons hd tl ih =>
    obtain ⟨r, c⟩ := hd
    by_cases hr : r = p
    · subst hr
      simp [FS.remove, FS.lookup, h', ih]
    · by_cases hq : r = q
      · subst hq
        simp [FS.remove, FS.lookup, hr, ih]
      · simp [FS.remove, FS.lookup, hr, hq, ih]

/-! ### Path distinctness -/

theorem candPath_inj {scriptPath : FPath} {d d' : String}
    (h : candPath scriptPath d = candPath scriptPath d') : d = d' := by
  have h2 := List.append_cancel_left (α := String) h
  simp only [List.cons.injEq, and_true] at h2
  exact h2

theorem candPath_ne_tmpPath (scriptPath : FPath) (d d' : String) :
    candPath scriptPath d ≠ tmpPath scriptPath d' := by
  intro h
  unfold candPath tmpPath at h
  have h2 := List.append_cancel_left (α := String) h
  simp only [List.cons.injEq, and_true] at h2
  exact absurd h2.2 (by decide)

theorem tmpPath_ne_candPath (scriptPath : FPath) (d d' : String) :
    tmpPath scriptPath d ≠ candPath scriptPath d' :=
  fun h => candPath_ne_tmpPath scriptPath d' d h.symm

theorem tmpPath_inj {scriptPath : FPath} {d d' : String}
    (h : tmpPath scriptPath d = tmpPath scriptPath d') : d = d' := by
  have h2 := List.append_cancel_left (α := String) h
  simp only [List.cons.injEq, and_true] at h2
  exact h2

/-! ### Loop unfolding equations -/

theorem mainLoop_nil (c : Codec) (sp : FPath) (fs : FS) (acc : List String) :
    mainLoop c sp [] fs acc = ⟨acc ++ ["Done."], fs, .ok⟩ := rfl

theorem mainLoop_cons_skip {c : Codec} {sp : FPath} {fs : FS} {d : String}
    (rest : List String) (acc : List String)
    (h : FS.lookup fs (candPath sp d) = none) :
    mainLoop c sp (d :: rest) fs acc =
      mainLoop c sp rest fs (acc ++ ["Skip (missing): " ++ pathStr (candPath sp d)]) := by
  simp [mainLoop, h]

theorem mainLoop_cons_ok {c : Codec} {sp : FPath} {fs : FS} {d : String} {b out : Bytes}
    (rest : List String) (acc : List String)
    (hb : FS.lookup fs (candPath sp d) = some b)
    (hp : processBytes c b = .ok out) :
    mainLoop c sp (d :: rest) fs acc =
      mainLoop c sp rest
        (FS.write (FS.remove (FS.write fs (tmpPath sp d) out) (tmpPath sp d)) (candPath sp d) out)
        (acc ++ ["OK: " ++ pathStr (candPath sp d)]) := by
  simp [mainLoop, hb, hp]

theorem mainLoop_cons_err {c : Codec} {sp : FPath} {fs : FS} {d : String} {b : Bytes}
    {m : String} {pb : Option Bytes}
    (rest : List String) (acc : List String)
    (hb : FS.lookup fs (candPath sp d) = some b)
    (hp : processBytes c b = .error (m, pb)) :
    mainLoop c sp (d :: rest) fs acc =
      ⟨acc ++ ["Error " ++ pathStr (candPath sp d) ++ ": " ++ m],
       (match pb with
        | some bs => FS.write fs (tmpPath sp d) bs
        | none => fs),
       .exn m⟩ := by
  cases pb <;> simp [mainLoop, hb, hp]

/-! ### Frame and preservation lemmas -/

/-- The loop writes only at candidate and temporary paths of the directories
it visits: every other path keeps its contents. -/
theorem loop_frame (c : Codec) (sp : FPath) :
    ∀ (dirs : List String) (fs : FS) (acc : List String) (p : FPath),
      (∀ d ∈ dirs, p ≠ candPath sp d ∧ p ≠ tmpPath sp d) →
      FS.lookup (mainLoop c sp dirs fs acc).fs p = FS.lookup fs p := by
  intro dirs
  induction dirs with
  | nil => intro fs acc p _; rfl
  | cons d rest ih =>
    intro fs acc p hp
    have hd := hp d (List.mem_cons_self d rest)
    have hrest : ∀ d' ∈ rest, p ≠ candPath sp d' ∧ p ≠ tmpPath sp d' :=
      fun d' hd' => hp d' (List.mem_cons_of_mem _ hd')
    cases hlook : FS.lookup fs (candPath sp d) with
    | none => rw [mainLoop_cons_skip rest acc hlook, ih _ _ _ hrest]
    | some b =>
      cases hproc : processBytes c b with
      | ok out =>
        rw [mainLoop_cons_ok rest acc hlook hproc, ih _ _ _ hrest,
          FS.lookup_write_ne _ _ _ _ hd.1, FS.lookup_remove_ne _ _ _ hd.2,
          FS.lookup_write_ne _ _ _ _ hd.2]
      | error e =>
        obtain ⟨m, pb⟩ := e
        rw [mainLoop_cons_err rest acc hlook hproc]
        cases pb with
        | none => rfl
        | some bs => simp [FS.lookup_write_ne _ _ _ _ hd.2]

/-- If the processing pipeline fails on the bytes stored at a candidate path,
then after the whole loop that path still holds exactly those bytes: the
failing save wrote only to the temporary sibling, and the run aborted before
the rename. -/
theorem loop_pres (c : Codec) (sp : FPath) (dtgt : String) (b : Bytes)
    (msg : String) (pb : Option Bytes)
    (hpb : processBytes c b = .error (msg, pb)) :
    ∀ (dirs : List String) (fs : FS) (acc : List String),
      FS.lookup fs (candPath sp dtgt) = some b →
      FS.lookup (mainLoop c sp dirs fs acc).fs (candPath sp dtgt) = some b := by
  intro dirs
  induction dirs with
  | nil => intro fs acc h; exact h
  | cons d rest ih =>
    intro fs acc h
    cases hlook : FS.lookup fs (candPath sp d) with
    | none => rw [mainLoop_cons_skip rest acc hlook]; exact ih fs _ h
    | some b0 =>
      by_cases hdd : d = dtgt
      · subst hdd
        have hb0 : b0 = b := Option.some.inj (hlook.symm.trans h)
        subst hb0
        rw [mainLoop_cons_err rest acc hlook hpb]
        cases pb with
        | none => exact h
        | some bs =>
          simpa [FS.lookup_write_ne _ _ _ _ (candPath_ne_tmpPath sp d d)] using h
      · have hcc : candPath sp dtgt ≠ candPath sp d := fun he => hdd (candPath_inj he).symm
        have hct : candPath sp dtgt ≠ tmpPath sp d := candPath_ne_tmpPath sp dtgt d
        cases hproc : processBytes c b0 with
        | ok out =>
          rw [mainLoop_cons_ok rest acc hlook hproc]
          apply ih
          rw [FS.lookup_write_ne _ _ _ _ hcc, FS.lookup_remove_ne _ _ _ hct,
            FS.lookup_write_ne _ _ _ _ hct]
          exact h
        | error e =>
          obtain ⟨m0, pb0⟩ := e
          rw [mainLoop_cons_err rest acc hlook hproc]
          cases pb0 with
          | none => exact h
          | some bs =>
            simpa [FS.lookup_write_ne _ _ _ _ hct] using h

/-! ### Refinement of the loop against the per-directory outcomes -/

/-- The loop prints exactly the lines the specification predicts, judged
against the pre-run filesystem `fs0`. -/
theorem loop_lines (c : Codec) (sp : FPath) (fs0 : FS) :
    ∀ (dirs : List String), dirs.Nodup →
      ∀ (fs : FS) (acc : List String),
        (∀ d ∈ dirs, FS.lookup fs (candPath sp d) = FS.lookup fs0 (candPath sp d)) →
        (mainLoop c sp dirs fs acc).lines = acc ++ specGo c sp fs0 dirs := by
  intro dirs
  induction dirs with
  | nil => intro _ fs acc _; simp [mainLoop_nil, specGo]
  | cons d rest ih =>
    intro hnd fs acc hagree
    have hagd := hagree d (List.mem_cons_self d rest)
    have hagrest : ∀ d' ∈ rest, FS.lookup fs (candPath sp d') = FS.lookup fs0 (candPath sp d') :=
      fun d' hd' => hagree d' (List.mem_cons_of_mem _ hd')
    have hdnotin : d ∉ rest := (List.nodup_cons.mp hnd).1
    have hnd' : rest.Nodup := (List.nodup_cons.mp hnd).2
    cases hlook0 : FS.lookup fs0 (candPath sp d) with
    | none =>
      have hlook : FS.lookup fs (candPath sp d) = none := by rw [hagd, hlook0]
      rw [mainLoop_cons_skip rest acc hlook, ih hnd' fs _ hagrest]
      simp [specGo, dirOutcome, hlook0]
    | some b =>
      have hlook : FS.lookup fs (candPath sp d) = some b := by rw [hagd, hlook0]
      cases hproc : processBytes c b with
      | ok out =>
        have hagree2 : ∀ d' ∈ rest,
            FS.lookup (FS.write (FS.remove (FS.write fs (tmpPath sp d) out) (tmpPath sp d))
              (candPath sp d) out) (candPath sp d') = FS.lookup fs0 (candPath sp d') := by
          intro d' hd'
          have hne : d' ≠ d := fun he => hdnotin (he ▸ hd')
          have h1 : candPath sp d' ≠ candPath sp d := fun he => hne (candPath_inj he)
          have h2 : candPath sp d' ≠ tmpPath sp d := candPath_ne_tmpPath sp d' d
          rw [FS.lookup_write_ne _ _ _ _ h1, FS.lookup_remove_ne _ _ _ h2,
            FS.lookup_write_ne _ _ _ _ h2]
          exact hagrest d' hd'
        rw [mainLoop_cons_ok rest acc hlook hproc, ih hnd' _ _ hagree2]
        simp [specGo, dirOutcome, hlook0, hproc]
      | error e =>
        obtain ⟨m, pb⟩ := e
        rw [mainLoop_cons_err rest acc hlook hproc]
        simp [specGo, dirOutcome, hlook0, hproc]

/-- If no directory's outcome is fatal, the loop finishes normally. -/
theorem loop_status_ok (c : Codec) (sp : FPath) (fs0 : FS) :
    ∀ (dirs : List String), dirs.Nodup →
      ∀ (fs : FS) (acc : List String),
        (∀ d ∈ dirs, FS.lookup fs (candPath sp d) = FS.lookup fs0 (candPath sp d)) →
        (∀ d ∈ dirs, (dirOutcome c sp fs0 d).isErr = false) →
        (mainLoop c sp dirs fs acc).status = .ok := by
  intro dirs
  induction dirs with
  | nil => intro _ fs acc _ _; rfl
  | cons d rest ih =>
    intro hnd fs acc hagree hok
    have hagd := hagree d (List.mem_cons_self d rest)
    have hagrest : ∀ d' ∈ rest, FS.lookup fs (candPath sp d') = FS.lookup fs0 (candPath sp d') :=
      fun d' hd' => hagree d' (List.mem_cons_of_mem _ hd')
    have hokrest : ∀ d' ∈ rest, (dirOutcome c sp fs0 d').isErr = false :=
      fun d' hd' => hok d' (List.mem_cons_of_mem _ hd')
    have hdnotin : d ∉ rest := (List.nodup_cons.mp hnd).1
    have hnd' : rest.Nodup := (List.nodup_cons.mp hnd).2
    cases hlook0 : FS.lookup fs0 (candPath sp d) with
    | none =>
      have hlook : FS.lookup fs (candPath sp d) = none := by rw [hagd, hlook0]
      rw [mainLoop_cons_skip rest acc hlook]
      exact ih hnd' fs _ hagrest hokrest
    | some b =>
      have hlook : FS.lookup fs (candPath sp d) = some b := by rw [hagd, hlook0]
      cases hproc : processBytes c b with
      | ok out =>
        have hagree2 : ∀ d' ∈ rest,
            FS.lookup (FS.write (FS.remove (FS.write fs (tmpPath sp d) out) (tmpPath sp d))
              (candPath sp d) out) (candPath sp d') = FS.lookup fs0 (candPath sp d') := by
          intro d' hd'
          have hne : d' ≠ d := fun he => hdnotin (he ▸ hd')
          have h1 : candPath sp d' ≠ candPath sp d := fun he => hne (candPath_inj he)
          have h2 : candPath sp d' ≠ tmpPath sp d := candPath_ne_tmpPath sp d' d
          rw [FS.lookup_write_ne _ _ _ _ h1, FS.lookup_remove_ne _ _ _ h2,
            FS.lookup_write_ne _ _ _ _ h2]
          exact hagrest d' hd'
        rw [mainLoop_cons_ok rest acc hlook hproc]
        exact ih hnd' _ _ hagree2 hokrest
      | error e =>
        obtain ⟨m, pb⟩ := e
        have := hok d (List.mem_cons_self d rest)
        simp [dirOutcome, hlook0, hproc, DirOutcome.isErr] at this

/-- If some directory's outcome is fatal, the loop ends in a propagated
exception. -/
theorem loop_status_err (c : Codec) (sp : FPath) (fs0 : FS) :
    ∀ (dirs : List String), dirs.Nodup →
      ∀ (fs : FS) (acc : List String),
        (∀ d ∈ dirs, FS.lookup fs (candPath sp d) = FS.lookup fs0 (candPath sp d)) →
        (∃ d ∈ dirs, (dirOutcome c sp fs0 d).isErr = true) →
        ∃ m, (mainLoop c sp dirs fs acc).status = .exn m := by
  intro dirs
  induction dirs with
  | nil => intro _ fs acc _ hex; obtain ⟨d, hd, _⟩ := hex; cases hd
  | cons d rest ih =>
    intro hnd fs acc hagree hex
    have hagd := hagree d (List.mem_cons_self d rest)
    have hagrest : ∀ d' ∈ rest, FS.lookup fs (candPath sp d') = FS.lookup fs0 (candPath sp d') :=
      fun d' hd' => hagree d' (List.mem_cons_of_mem _ hd')
    have hdnotin : d ∉ rest := (List.nodup_cons.mp hnd).1
    have hnd' : rest.Nodup := (List.nodup_cons.mp hnd).2
    cases hlook0 : FS.lookup fs0 (candPath sp d) with
    | none =>
      have hlook : FS.lookup fs (candPath sp d) = none := by rw [hagd, hlook0]
      rw [mainLoop_cons_skip rest acc hlook]
      apply ih hnd' fs _ hagrest
      obtain ⟨d0, hd0, he0⟩ := hex
      rcases List.mem_cons.mp hd0 with rfl | hm
      · simp [dirOutcome, hlook0, DirOutcome.isErr] at he0
      · exact ⟨d0, hm, he0⟩
    | some b =>
      have hlook : FS.lookup fs (candPath sp d) = some b := by rw [hagd, hlook0]
      cases hproc : processBytes c b with
      | ok out =>
        have hagree2 : ∀ d' ∈ rest,
            FS.lookup (FS.write (FS.remove (FS.write fs (tmpPath sp d) out) (tmpPath sp d))
              (candPath sp d) out) (candPath sp d') = FS.lookup fs0 (candPath sp d') := by
          intro d' hd'
          have hne : d' ≠ d := fun he => hdnotin (he ▸ hd')
          have h1 : candPath sp d' ≠ candPath sp d := fun he => hne (candPath_inj he)
          have h2 : candPath sp d' ≠ tmpPath sp d := candPath_ne_tmpPath sp d' d
          rw [FS.lookup_write_ne _ _ _ _ h1, FS.lookup_remove_ne _ _ _ h2,
            FS.lookup_write_ne _ _ _ _ h2]
          exact hagrest d' hd'
        rw [mainLoop_cons_ok rest acc hlook hproc]
        apply ih hnd' _ _ hagree2
        obtain ⟨d0, hd0, he0⟩ := hex
        rcases List.mem_cons.mp hd0 with rfl | hm
        · simp [dirOutcome, hlook0, hproc, DirOutcome.isErr] at he0
        · exact ⟨d0, hm, he0⟩
      | error e =>
        obtain ⟨m, pb⟩ := e
        rw [mainLoop_cons_err rest acc hlook hproc]
        exact ⟨m, rfl⟩

theorem loop_fs_ok (c : Codec) (sp : FPath) (fs0 : FS) :
    ∀ (dirs : List String), dirs.Nodup →
      ∀ (fs : FS) (acc : List String),
        (∀ d ∈ dirs, FS.lookup fs (candPath sp d) = FS.lookup fs0 (candPath sp d)) →
        (∀ d ∈ dirs, (dirOutcome c sp fs0 d).isErr = false) →
        ∀ d ∈ dirs,
          FS.lookup (mainLoop c sp dirs fs acc).fs (candPath sp d) =
            outcomeContent (dirOutcome c sp fs0 d) (FS.lookup fs0 (candPath sp d)) := by
  intro dirs
  induction dirs with
  | nil => intro _ fs acc _ _ d hd; cases hd
  | cons d0 rest ih =>
    intro hnd fs acc hagree hok d hd
    have hagd := hagree d0 (List.mem_cons_self d0 rest)
    have hagrest : ∀ d' ∈ rest, FS.lookup fs (candPath sp d') = FS.lookup fs0 (candPath sp d') :=
      fun d' hd' => hagree d' (List.mem_cons_of_mem _ hd')
    have hokrest : ∀ d' ∈ rest, (dirOutcome c sp fs0 d').isErr = false :=
      fun d' hd' => hok d' (List.mem_cons_of_mem _ hd')
    have hdnotin : d0 ∉ rest := (List.nodup_cons.mp hnd).1
    have hnd' : rest.Nodup := (List.nodup_cons.mp hnd).2
    have hframe_rest : ∀ d' ∈ rest, candPath sp d0 ≠ candPath sp d' ∧
        candPath sp d0 ≠ tmpPath sp d' := by
      intro d' hd'
      refine ⟨fun he => hdnotin ?_, candPath_ne_tmpPath sp d0 d'⟩
      rw [candPath_inj he]; exact hd'
    rcases List.mem_cons.mp hd with rfl | hm
    · -- the head directory is the one we track
      cases hlook0 : FS.lookup fs0 (candPath sp d) with
      | none =>
        have hlook : FS.lookup fs (candPath sp d) = none := by rw [hagd, hlook0]
        rw [mainLoop_cons_skip rest acc hlook,
          loop_frame c sp rest fs _ (candPath sp d) hframe_rest]
        simp [dirOutcome, hlook, hlook0, outcomeContent]
      | some b =>
        have hlook : FS.lookup fs (candPath sp d) = some b := by rw [hagd, hlook0]
        cases hproc : processBytes c b with
        | ok out =>
          rw [mainLoop_cons_ok rest acc hlook hproc,
            loop_frame c sp rest _ _ (candPath sp d) hframe_rest,
            FS.lookup_write_self]
          simp [dirOutcome, hlook0, hproc, outcomeContent]
        | error e =>
          obtain ⟨m, pb⟩ := e
          have := hok d (List.mem_cons_self d rest)
          simp [dirOutcome, hlook0, hproc, DirOutcome.isErr] at this
    · -- the tracked directory is further down
      cases hlook0 : FS.lookup fs0 (candPath sp d0) with
      | none =>
        have hlook : FS.lookup fs (candPath sp d0) = none := by rw [hagd, hlook0]
        rw [mainLoop_cons_skip rest acc hlook]
        exact ih hnd' fs _ hagrest hokrest d hm
      | some b =>
        have hlook : FS.lookup fs (candPath sp d0) = some b := by rw [hagd, hlook0]
        cases hproc : processBytes c b with
        | ok out =>
          have hagree2 : ∀ d' ∈ rest,
              FS.lookup (FS.write (FS.remove (FS.write fs (tmpPath sp d0) out) (tmpPath sp d0))
                (candPath sp d0) out) (candPath sp d') = FS.lookup fs0 (candPath sp d') := by
            intro d' hd'
            have hne : d' ≠ d0 := fun he => hdnotin (he ▸ hd')
            have h1 : candPath sp d' ≠ candPath sp d0 := fun he => hne (candPath_inj he)
            have h2 : candPath sp d' ≠ tmpPath sp d0 := candPath_ne_tmpPath sp d' d0
            rw [FS.lookup_write_ne _ _ _ _ h1, FS.lookup_remove_ne _ _ _ h2,
              FS.lookup_write_ne _ _ _ _ h2]
            exact hagrest d' hd'
          rw [mainLoop_cons_ok rest acc hlook hproc]
          exact ih hnd' _ _ hagree2 hokrest d hm
        | error e =>
          obtain ⟨m, pb⟩ := e
          have := hok d0 (List.mem_cons_self d0 rest)
          simp [dirOutcome, hlook0, hproc, DirOutcome.isErr] at this

/-! ### The completion line is distinct from every per-directory line -/

theorem skipLine_ne_done (p : FPath) : ("Skip (missing): " ++ pathStr p) ≠ "Done." := by
  intro h
  have h2 := congrArg String.length h
  rw [String.length_append] at h2
  have e1 : ("Skip (missing): " : String).length = 16 := rfl
  have e2 : ("Done." : String).length = 5 := rfl
  omega

theorem errLine_ne_done (p : FPath) (m : String) :
    ("Error " ++ pathStr p ++ ": " ++ m) ≠ "Done." := by
  intro h
  have h2 := congrArg String.length h
  rw [String.length_append, String.length_append, String.length_append] at h2
  have e1 : ("Error " : String).length = 6 := rfl
  have e2 : ("Done." : String).length = 5 := rfl
  omega

theorem okLine_ne_done (p : FPath) : ("OK: " ++ pathStr p) ≠ "Done." := by
  intro h
  rw [pathStr] at h
  have h2 := congrArg String.length h
  rw [String.length_append, String.length_append] at h2
  have e1 : ("OK: " : String).length = 4 := rfl
  have e2 : ("/" : String).length = 1 := rfl
  have e3 : ("Done." : String).length = 5 := rfl
  have h0 : (String.intercalate "/" p).length = 0 := by omega
  have hdata : (String.intercalate "/" p).data = [] :=
    List.length_eq_zero.mp h0
  have hempty : String.intercalate "/" p = "" := by
    apply String.ext
    rw [hdata]
  rw [hempty] at h
  exact absurd h (by decide)

/-! ### Membership facts about the predicted output -/

/-- When a directory processes successfully and no directory errs earlier or
later, its "OK" line is among the predicted output lines. -/
theorem specGo_mem_ok (c : Codec) (sp : FPath) (fs0 : FS) (dtgt : String) (out : Bytes)
    (hout : dirOutcome c sp fs0 dtgt = .okd out) :
    ∀ (dirs : List String), dtgt ∈ dirs →
      (∀ d ∈ dirs, (dirOutcome c sp fs0 d).isErr = false) →
      ("OK: " ++ pathStr (candPath sp dtgt)) ∈ specGo c sp fs0 dirs := by
  intro dirs
  induction dirs with
  | nil => intro h; cases h
  | cons d rest ih =>
    intro hmem hok
    have hokrest : ∀ d' ∈ rest, (dirOutcome c sp fs0 d').isErr = false :=
      fun d' hd' => hok d' (List.mem_cons_of_mem _ hd')
    rcases List.mem_cons.mp hmem with rfl | hm
    · rw [specGo, hout]
      exact List.mem_cons_self _ _
    · rw [specGo]
      cases ho : dirOutcome c sp fs0 d with
      | skip => exact List.mem_cons_of_mem _ (ih hm hokrest)
      | okd o => exact List.mem_cons_of_mem _ (ih hm hokrest)
      | err m pb =>
        have := hok d (List.mem_cons_self d rest)
        rw [ho] at this
        exact absurd this (by simp [DirOutcome.isErr])

/-- "Done." appears among the predicted lines exactly when no directory's
outcome is fatal. -/
theorem specGo_done_iff (c : Codec) (sp : FPath) (fs0 : FS) :
    ∀ (dirs : List String),
      ("Done." ∈ specGo c sp fs0 dirs ↔ ∀ d ∈ dirs, (dirOutcome c sp fs0 d).isErr = false) := by
  intro dirs
  induction dirs with
  | nil => simp [specGo]
  | cons d rest ih =>
    rw [specGo]
    cases ho : dirOutcome c sp fs0 d with
    | skip =>
      constructor
      · intro h
        rcases List.mem_cons.mp h with h1 | h1
        · exact absurd h1.symm (skipLine_ne_done _)
        · intro d' hd'
          rcases List.mem_cons.mp hd' with rfl | hm
          · rw [ho]; rfl
          · exact (ih.mp h1) d' hm
      · intro h
        apply List.mem_cons_of_mem
        exact ih.mpr (fun d' hd' => h d' (List.mem_cons_of_mem _ hd'))
    | okd o =>
      constructor
      · intro h
        rcases List.mem_cons.mp h with h1 | h1
        · exact absurd h1.symm (okLine_ne_done _)
        · intro d' hd'
          rcases List.mem_cons.mp hd' with rfl | hm
          · rw [ho]; rfl
          · exact (ih.mp h1) d' hm
      · intro h
        apply List.mem_cons_of_mem
        exact ih.mpr (fun d' hd' => h d' (List.mem_cons_of_mem _ hd'))
    | err m pb =>
      constructor
      · intro h
        rcases List.mem_cons.mp h with h | h
        · exact absurd h.symm (errLine_ne_done _ _)
        · cases h
      · intro h
        have := h d (List.mem_cons_self d rest)
        rw [ho] at this
        exact absurd this (by simp [DirOutcome.isErr])

/-! ### Claims -/

/-- C1, counterexample: the spec says the base directory is found "three
levels up" from the script file's resolved location, but the source computes
`Path(__file__).resolve().parent.parent`, which is two levels up.  At a
concrete script location `/home/user/My-Cafe/scripts/fix_ic_launcher_png.py`
the two disagree: the source yields `/home/user/My-Cafe/android/...`, the
spec's three-levels-up reading `/home/user/android/...`. -/
theorem c1_three_levels_counterexample :
    RES_BASE ["home", "user", "My-Cafe", "scripts", "fix_ic_launcher_png.py"] ≠
      resBaseSpecThreeUp ["home", "user", "My-Cafe", "scripts", "fix_ic_launcher_png.py"] := by
  decide

/-- C1 (amended): the base resource directory is computed from the script
file's own resolved location by going TWO levels up (to the script's
grandparent directory, the repository root) and then descending into
`android/app/src/main/res`; every candidate path has the form
`<that base>/<mipmap dir>/ic_launcher.png`, as shown by the skip lines of a
run on an empty filesystem naming exactly those five paths. -/
theorem c1_base_two_levels_up (c : Codec) (sp : FPath) :
    RES_BASE sp = (sp.dropLast).dropLast ++ ["android", "app", "src", "main", "res"] ∧
    (∀ d, candPath sp d =
      (sp.dropLast).dropLast ++ ["android", "app", "src", "main", "res"] ++ [d, ICON_NAME]) ∧
    (main c sp []).lines =
      MIPMAP_DIRS.map (fun d => "Skip (missing): " ++
        pathStr ((sp.dropLast).dropLast ++ ["android", "app", "src", "main", "res"] ++
          [d, ICON_NAME])) ++ ["Done."] := by
  refine ⟨rfl, fun d => by simp [candPath, RES_BASE, parentDir, List.append_assoc], ?_⟩
  simp [main, mainLoop, MIPMAP_DIRS, FS.lookup, candPath, RES_BASE, parentDir,
    List.append_assoc]

/-- C2: when the candidate file of a directory does not exist, the loop emits
exactly one "Skip (missing)" line naming that path, leaves the filesystem
untouched, does not raise, and continues with the remaining directories. -/
theorem c2_skip_missing (c : Codec) (sp : FPath) (fs : FS) (d : String)
    (rest acc : List String)
    (h : FS.lookup fs (candPath sp d) = none) :
    mainLoop c sp (d :: rest) fs acc =
      mainLoop c sp rest fs (acc ++ ["Skip (missing): " ++ pathStr (candPath sp d)]) :=
  mainLoop_cons_skip rest acc h

/-- C2 witness: a concrete missing file in `mipmap-mdpi` on the empty
filesystem. -/
theorem c2_skip_missing_witness :
    FS.lookup [] (candPath sp0 "mipmap-mdpi") = none ∧
    mainLoop cOk sp0 ["mipmap-mdpi"] [] [] =
      mainLoop cOk sp0 [] [] ([] ++ ["Skip (missing): " ++ pathStr (candPath sp0 "mipmap-mdpi")]) :=
  ⟨rfl, c2_skip_missing cOk sp0 [] "mipmap-mdpi" [] [] rfl⟩

/-- C3: when processing a present file raises, the run prints exactly one
"Error <path>: <message>" line, writes at most the partial temporary file,
ends with a propagated exception (non-zero exit), processes no further
directory and never prints "Done." (the result's lines are the accumulated
prefix plus the error line only). -/
theorem c3_error_aborts (c : Codec) (sp : FPath) (fs : FS) (d : String)
    (rest acc : List String) (b : Bytes) (m : String) (pb : Option Bytes)
    (hb : FS.lookup fs (candPath sp d) = some b)
    (hp : processBytes c b = .error (m, pb)) :
    mainLoop c sp (d :: rest) fs acc =
      ⟨acc ++ ["Error " ++ pathStr (candPath sp d) ++ ": " ++ m],
       (match pb with
        | some bs => FS.write fs (tmpPath sp d) bs
        | none => fs),
       .exn m⟩ ∧
    ("Done." ∉ acc → "Done." ∉ (mainLoop c sp (d :: rest) fs acc).lines) := by
  refine ⟨mainLoop_cons_err rest acc hb hp, ?_⟩
  intro hacc
  rw [mainLoop_cons_err rest acc hb hp]
  intro hmem
  rcases List.mem_append.mp hmem with h1 | h1
  · exact hacc h1
  · rcases List.mem_singleton.mp h1 with h2
    exact errLine_ne_done (candPath sp d) m h2.symm

/-- C3 witness: a present file in `mipmap-mdpi` whose save fails. -/
theorem c3_error_aborts_witness :
    FS.lookup [(candPath sp0 "mipmap-mdpi", [0])] (candPath sp0 "mipmap-mdpi") = some [0] ∧
    processBytes cErr [0] = .error ("disk full", some [9]) ∧
    (mainLoop cErr sp0 ["mipmap-mdpi", "mipmap-hdpi"] [(candPath sp0 "mipmap-mdpi", [0])] [] =
      ⟨["Error " ++ pathStr (candPath sp0 "mipmap-mdpi") ++ ": " ++ "disk full"],
       FS.write [(candPath sp0 "mipmap-mdpi", [0])] (tmpPath sp0 "mipmap-mdpi") [9],
       .exn "disk full"⟩ ∧
     ("Done." ∉ ([] : List String) →
      "Done." ∉ (mainLoop cErr sp0 ["mipmap-mdpi", "mipmap-hdpi"]
        [(candPath sp0 "mipmap-mdpi", [0])] []).lines)) :=
  ⟨rfl, rfl,
    c3_error_aborts cErr sp0 [(candPath sp0 "mipmap-mdpi", [0])] "mipmap-mdpi"
      ["mipmap-hdpi"] [] [0] "disk full" (some [9]) rfl rfl⟩

/-- C4: atomicity on error.  If the processing pipeline fails on the bytes a
candidate path holds before the run, then after the whole run (whichever
directories came before or after) that path still holds exactly those bytes:
the failing save wrote only to the temporary sibling path, never to the
original. -/
theorem c4_atomic_on_error (c : Codec) (sp : FPath) (fs : FS) (d : String)
    (b : Bytes) (m : String) (pb : Option Bytes)
    (hb : FS.lookup fs (candPath sp d) = some b)
    (hp : processBytes c b = .error (m, pb)) :
    FS.lookup (main c sp fs).fs (candPath sp d) = some b :=
  loop_pres c sp d b m pb hp MIPMAP_DIRS fs [] hb

/-- C4 witness: the failing save in `mipmap-hdpi` leaves the original bytes
`[0]` in place after a full run. -/
theorem c4_atomic_on_error_witness :
    FS.lookup fsHdpi (candPath sp0 "mipmap-hdpi") = some [0] ∧
    processBytes cErr [0] = .error ("disk full", some [9]) ∧
    FS.lookup (main cErr sp0 fsHdpi).fs (candPath sp0 "mipmap-hdpi") = some [0] :=
  ⟨rfl, rfl,
    c4_atomic_on_error cErr sp0 fsHdpi "mipmap-hdpi" [0] "disk full" (some [9]) rfl rfl⟩

/-- C6: when the image codec library cannot be imported, the program prints
exactly the installation hint "Install Pillow: pip install Pillow" and stops
with `SystemExit(1)` with the filesystem untouched, before reading or
writing any candidate file. -/
theorem c6_missing_pillow (c : Codec) (sp : FPath) (fs : FS) :
    program false c sp fs = ⟨["Install Pillow: pip install Pillow"], fs, .sysExit 1⟩ :=
  rfl

/-- C9: two invocations that differ only in the process working directory
(same script location, same filesystem, same codec) produce identical
output, filesystem and exit behaviour: the source derives every path from
the script's own resolved location and never reads the working directory. -/
theorem c9_cwd_noninterference (cwd1 cwd2 : FPath) (pillowAvailable : Bool)
    (c : Codec) (scriptPath : FPath) (fs : FS) :
    runFromCwd cwd1 pillowAvailable c scriptPath fs =
      runFromCwd cwd2 pillowAvailable c scriptPath fs :=
  rfl

/-- C10: when the save to the temporary path fails after writing some bytes,
no cleanup happens: the partial temporary file `ic_launcher.tmp.png` remains
in the directory, the original file is untouched, and the run ends in the
propagated exception. -/
theorem c10_no_tmp_cleanup (c : Codec) (sp : FPath) (fs : FS) (d : String)
    (rest acc : List String) (b pbytes : Bytes) (m : String)
    (hb : FS.lookup fs (candPath sp d) = some b)
    (hp : processBytes c b = .error (m, some pbytes)) :
    FS.lookup (mainLoop c sp (d :: rest) fs acc).fs (tmpPath sp d) = some pbytes ∧
    FS.lookup (mainLoop c sp (d :: rest) fs acc).fs (candPath sp d) = some b ∧
    (mainLoop c sp (d :: rest) fs acc).status = .exn m := by
  rw [mainLoop_cons_err rest acc hb hp]
  refine ⟨?_, ?_, rfl⟩
  · simp [FS.lookup_write_self]
  · simpa [FS.lookup_write_ne _ _ _ _ (candPath_ne_tmpPath sp d d)] using hb

/-- C10 witness: the failing save leaves `[9]` in the temporary file next to
the untouched original `[0]`. -/
theorem c10_no_tmp_cleanup_witness :
    FS.lookup fsHdpi (candPath sp0 "mipmap-hdpi") = some [0] ∧
    processBytes cErr [0] = .error ("disk full", some [9]) ∧
    FS.lookup (mainLoop cErr sp0 ["mipmap-hdpi"] fsHdpi []).fs (tmpPath sp0 "mipmap-hdpi") =
      some [9] ∧
    FS.lookup (mainLoop cErr sp0 ["mipmap-hdpi"] fsHdpi []).fs (candPath sp0 "mipmap-hdpi") =
      some [0] ∧
    (mainLoop cErr sp0 ["mipmap-hdpi"] fsHdpi []).status = .exn "disk full" := by
  refine ⟨rfl, rfl, ?_⟩
  have := c10_no_tmp_cleanup cErr sp0 fsHdpi "mipmap-hdpi" [] [] [0] [9] "disk full" rfl rfl
  exact ⟨this.1, this.2.1, this.2.2⟩

/-- C5: for every filesystem and codec, the run's output is exactly the
specification's predicted lines — one "Skip (missing)"/"OK" line per
directory in the fixed order mdpi, hdpi, xhdpi, xxhdpi, xxxhdpi, cut short
at the first error line — the run exits 0 exactly when every directory was
skipped or succeeded, and the final "Done." line appears exactly in that
case. -/
theorem c5_output_refinement (c : Codec) (sp : FPath) (fs : FS) :
    (main c sp fs).lines = specLinesDef c sp fs ∧
    ((main c sp fs).status = ExitStatus.ok ↔
      ∀ d ∈ MIPMAP_DIRS, (dirOutcome c sp fs d).isErr = false) ∧
    ("Done." ∈ (main c sp fs).lines ↔ (main c sp fs).status = ExitStatus.ok) := by
  have hnd : MIPMAP_DIRS.Nodup := by decide
  have hagree : ∀ d ∈ MIPMAP_DIRS,
      FS.lookup fs (candPath sp d) = FS.lookup fs (candPath sp d) := fun _ _ => rfl
  have hlines : (main c sp fs).lines = specGo c sp fs MIPMAP_DIRS := by
    simpa using loop_lines c sp fs MIPMAP_DIRS hnd fs [] hagree
  have hiff : (main c sp fs).status = ExitStatus.ok ↔
      ∀ d ∈ MIPMAP_DIRS, (dirOutcome c sp fs d).isErr = false := by
    constructor
    · intro hok
      by_contra hno
      push_neg at hno
      obtain ⟨d, hd, hne⟩ := hno
      have herr : (dirOutcome c sp fs d).isErr = true := by
        cases hh : (dirOutcome c sp fs d).isErr
        · exact absurd hh hne
        · rfl
      obtain ⟨m, hm⟩ := loop_status_err c sp fs MIPMAP_DIRS hnd fs [] hagree ⟨d, hd, herr⟩
      have hok' : (mainLoop c sp MIPMAP_DIRS fs []).status = ExitStatus.ok := hok
      rw [hok'] at hm
      cases hm
    · exact fun h => loop_status_ok c sp fs MIPMAP_DIRS hnd fs [] hagree h
  refine ⟨by simpa [specLinesDef] using hlines, hiff, ?_⟩
  rw [hlines, specGo_done_iff c sp fs MIPMAP_DIRS]
  exact hiff.symm

/-- C7: after a successful run, a present decodable file holds exactly the
bytes of the re-encoded image: a PNG that decodes to the RGBA conversion of
the input, with the same dimensions and the same pixel values at every
coordinate, whatever the input's original mode (indexed, grayscale, RGB or
RGBA). -/
theorem c7_rgba_preserved (c : Codec) (sp : FPath) (fs : FS) (d : String)
    (b : Bytes) (img rgba : Image) (out : Bytes)
    (hmem : d ∈ MIPMAP_DIRS)
    (hnoerr : ∀ d' ∈ MIPMAP_DIRS, (dirOutcome c sp fs d').isErr = false)
    (hfile : FS.lookup fs (candPath sp d) = some b)
    (hdec : c.decode b = .ok img)
    (hconv : c.convertRGBA img = .ok rgba)
    (hmode : rgba.mode = "RGBA")
    (hw : rgba.width = img.width)
    (hh : rgba.height = img.height)
    (hpx : rgba.pixels = img.pixels)
    (henc : c.encodePNG rgba = .ok out)
    (hdecout : c.decode out = .ok rgba) :
    FS.lookup (main c sp fs).fs (candPath sp d) = some out ∧
    c.decode out = .ok rgba ∧
    rgba.mode = "RGBA" ∧ rgba.width = img.width ∧ rgba.height = img.height ∧
    rgba.pixels = img.pixels := by
  have hnd : MIPMAP_DIRS.Nodup := by decide
  have hproc : processBytes c b = .ok out := by
    simp [processBytes, hdec, hconv, henc]
  have hout : dirOutcome c sp fs d = .okd out := by
    simp [dirOutcome, hfile, hproc]
  have hfs := loop_fs_ok c sp fs MIPMAP_DIRS hnd fs [] (fun _ _ => rfl) hnoerr d hmem
  rw [hout] at hfs
  exact ⟨hfs, hdecout, hmode, hw, hh, hpx⟩

/-- C7 witness: a 1-by-1 indexed-colour file in `mipmap-hdpi` is re-encoded
to the RGBA bytes `[1]`, which decode back to the converted image. -/
theorem c7_rgba_preserved_witness :
    ("mipmap-hdpi" ∈ MIPMAP_DIRS) ∧
    (∀ d' ∈ MIPMAP_DIRS, (dirOutcome cOk sp0 fsHdpi d').isErr = false) ∧
    FS.lookup fsHdpi (candPath sp0 "mipmap-hdpi") = some [0] ∧
    cOk.decode [0] = .ok imgP ∧
    cOk.convertRGBA imgP = .ok imgRGBA ∧
    imgRGBA.mode = "RGBA" ∧ imgRGBA.width = imgP.width ∧ imgRGBA.height = imgP.height ∧
    imgRGBA.pixels = imgP.pixels ∧
    cOk.encodePNG imgRGBA = .ok [1] ∧
    cOk.decode [1] = .ok imgRGBA ∧
    (FS.lookup (main cOk sp0 fsHdpi).fs (candPath sp0 "mipmap-hdpi") = some [1] ∧
     cOk.decode [1] = .ok imgRGBA ∧
     imgRGBA.mode = "RGBA" ∧ imgRGBA.width = imgP.width ∧ imgRGBA.height = imgP.height ∧
     imgRGBA.pixels = imgP.pixels) :=
  ⟨by decide, by decide, rfl, rfl, rfl, rfl, rfl, rfl, rfl, rfl, rfl,
    c7_rgba_preserved cOk sp0 fsHdpi "mipmap-hdpi" [0] imgP imgRGBA [1]
      (by decide) (by decide) rfl rfl rfl rfl rfl rfl rfl rfl rfl⟩

/-- C8: idempotence.  When a directory's file is the only present candidate
and the codec round-trips (a PNG it produced decodes back to the RGBA image,
and converting an RGBA image is the identity), running the utility twice
prints "OK" for that path in both runs, both runs exit 0, and the file holds
the same re-encoded bytes — hence identical pixels — after each run. -/
theorem c8_idempotent (c : Codec) (sp : FPath) (fs : FS) (d : String)
    (b : Bytes) (img rgba : Image) (out : Bytes)
    (hmem : d ∈ MIPMAP_DIRS)
    (honly : ∀ d' ∈ MIPMAP_DIRS, d' ≠ d → FS.lookup fs (candPath sp d') = none)
    (hfile : FS.lookup fs (candPath sp d) = some b)
    (hdec : c.decode b = .ok img)
    (hconv : c.convertRGBA img = .ok rgba)
    (henc : c.encodePNG rgba = .ok out)
    (hdecout : c.decode out = .ok rgba)
    (hfix : c.convertRGBA rgba = .ok rgba) :
    ("OK: " ++ pathStr (candPath sp d)) ∈ (main c sp fs).lines ∧
    ("OK: " ++ pathStr (candPath sp d)) ∈ (main c sp (main c sp fs).fs).lines ∧
    (main c sp fs).status = ExitStatus.ok ∧
    (main c sp (main c sp fs).fs).status = ExitStatus.ok ∧
    FS.lookup (main c sp fs).fs (candPath sp d) = some out ∧
    FS.lookup (main c sp (main c sp fs).fs).fs (candPath sp d) = some out ∧
    c.decode out = .ok rgba := by
  have hnd : MIPMAP_DIRS.Nodup := by decide
  have hproc1 : processBytes c b = .ok out := by
    simp [processBytes, hdec, hconv, henc]
  have hproc2 : processBytes c out = .ok out := by
    simp [processBytes, hdecout, hfix, henc]
  have hout1 : dirOutcome c sp fs d = .okd out := by
    simp [dirOutcome, hfile, hproc1]
  have hnoerr1 : ∀ d' ∈ MIPMAP_DIRS, (dirOutcome c sp fs d').isErr = false := by
    intro d' hd'
    by_cases he : d' = d
    · subst he
      rw [hout1]
      rfl
    · simp [dirOutcome, honly d' hd' he, DirOutcome.isErr]
  have hagree : ∀ d' ∈ MIPMAP_DIRS,
      FS.lookup fs (candPath sp d') = FS.lookup fs (candPath sp d') := fun _ _ => rfl
  -- facts about the first run
  have hlines1 : (main c sp fs).lines = specGo c sp fs MIPMAP_DIRS := by
    simpa using loop_lines c sp fs MIPMAP_DIRS hnd fs [] hagree
  have hmem1 : ("OK: " ++ pathStr (candPath sp d)) ∈ (main c sp fs).lines := by
    rw [hlines1]
    exact specGo_mem_ok c sp fs d out hout1 MIPMAP_DIRS hmem hnoerr1
  have hstat1 : (main c sp fs).status = ExitStatus.ok :=
    loop_status_ok c sp fs MIPMAP_DIRS hnd fs [] hagree hnoerr1
  have hfs1 : ∀ d' ∈ MIPMAP_DIRS,
      FS.lookup (main c sp fs).fs (candPath sp d') =
        outcomeContent (dirOutcome c sp fs d') (FS.lookup fs (candPath sp d')) :=
    fun d' hd' => loop_fs_ok c sp fs MIPMAP_DIRS hnd fs [] hagree hnoerr1 d' hd'
  have hfile2 : FS.lookup (main c sp fs).fs (candPath sp d) = some out := by
    have := hfs1 d hmem
    rw [hout1] at this
    exact this
  have honly2 : ∀ d' ∈ MIPMAP_DIRS, d' ≠ d →
      FS.lookup (main c sp fs).fs (candPath sp d') = none := by
    intro d' hd' he
    have := hfs1 d' hd'
    rw [this]
    simp [dirOutcome, honly d' hd' he, outcomeContent]
  -- facts about the second run, whose pre-run filesystem is the first run's
  have hout2 : dirOutcome c sp (main c sp fs).fs d = .okd out := by
    simp [dirOutcome, hfile2, hproc2]
  have hnoerr2 : ∀ d' ∈ MIPMAP_DIRS, (dirOutcome c sp (main c sp fs).fs d').isErr = false := by
    intro d' hd'
    by_cases he : d' = d
    · subst he
      rw [hout2]
      rfl
    · simp [dirOutcome, honly2 d' hd' he, DirOutcome.isErr]
  have hagree2 : ∀ d' ∈ MIPMAP_DIRS,
      FS.lookup (main c sp fs).fs (candPath sp d') =
        FS.lookup (main c sp fs).fs (candPath sp d') := fun _ _ => rfl
  have hlines2 : (main c sp (main c sp fs).fs).lines =
      specGo c sp (main c sp fs).fs MIPMAP_DIRS := by
    simpa using loop_lines c sp (main c sp fs).fs MIPMAP_DIRS hnd (main c sp fs).fs [] hagree2
  have hmem2 : ("OK: " ++ pathStr (candPath sp d)) ∈ (main c sp (main c sp fs).fs).lines := by
    rw [hlines2]
    exact specGo_mem_ok c sp (main c sp fs).fs d out hout2 MIPMAP_DIRS hmem hnoerr2
  have hstat2 : (main c sp (main c sp fs).fs).status = ExitStatus.ok :=
    loop_status_ok c sp (main c sp fs).fs MIPMAP_DIRS hnd (main c sp fs).fs [] hagree2 hnoerr2
  have hfs2 : FS.lookup (main c sp (main c sp fs).fs).fs (candPath sp d) = some out := by
    have := loop_fs_ok c sp (main c sp fs).fs MIPMAP_DIRS hnd (main c sp fs).fs []
      hagree2 hnoerr2 d hmem
    rw [hout2] at this
    exact this
  exact ⟨hmem1, hmem2, hstat1, hstat2, hfile2, hfs2, hdecout⟩

/-- C8 witness: the single `mipmap-hdpi` file processed twice with the
round-tripping test codec. -/
theorem c8_idempotent_witness :
    ("mipmap-hdpi" ∈ MIPMAP_DIRS) ∧
    (∀ d' ∈ MIPMAP_DIRS, d' ≠ "mipmap-hdpi" → FS.lookup fsHdpi (candPath sp0 d') = none) ∧
    FS.lookup fsHdpi (candPath sp0 "mipmap-hdpi") = some [0] ∧
    cOk.decode [0] = .ok imgP ∧
    cOk.convertRGBA imgP = .ok imgRGBA ∧
    cOk.encodePNG imgRGBA = .ok [1] ∧
    cOk.decode [1] = .ok imgRGBA ∧
    cOk.convertRGBA imgRGBA = .ok imgRGBA ∧
    (("OK: " ++ pathStr (candPath sp0 "mipmap-hdpi")) ∈ (main cOk sp0 fsHdpi).lines ∧
     ("OK: " ++ pathStr (candPath sp0 "mipmap-hdpi")) ∈
       (main cOk sp0 (main cOk sp0 fsHdpi).fs).lines ∧
     (main cOk sp0 fsHdpi).status = ExitStatus.ok ∧
     (main cOk sp0 (main cOk sp0 fsHdpi).fs).status = ExitStatus.ok ∧
     FS.lookup (main cOk sp0 fsHdpi).fs (candPath sp0 "mipmap-hdpi") = some [1] ∧
     FS.lookup (main cOk sp0 (main cOk sp0 fsHdpi).fs).fs (candPath sp0 "mipmap-hdpi") =
       some [1] ∧
     cOk.decode [1] = .ok imgRGBA) :=
  ⟨by decide, by decide, rfl, rfl, rfl, rfl, rfl, rfl,
    c8_idempotent cOk sp0 fsHdpi "mipmap-hdpi" [0] imgP imgRGBA [1]
      (by decide) (by decide) rfl rfl rfl rfl rfl rfl⟩

end FixIcLauncher
